import Mathlib

/-!
Verification of the repository's two notebooks: the classical-logic-gates
exercise (NOT, XOR, AND, NAND, OR, FANOUT built from quantum circuit
primitives) and the QAOA exercise (a 2-qubit Ising cost Hamiltonian driven
by a classical optimizer).

The embedding mirrors the Python source cell by cell.  Python runtime
failures (SyntaxError, TypeError, NameError, IndexError) are modelled with
an explicit error type and `Except`; circuits built from `x`, `cx` and
`measure` on computational-basis inputs are simulated deterministically,
exactly as the source relies on (`shots=1`, "the output will be
deterministic").  The spec's hypothetical state-vector simulator (norm
invariant, expectation values) is modelled separately over complex
amplitudes.
-/

/-- Python runtime failure kinds observed in (or claimed of) the notebooks.
`parseError` stands for Python's SyntaxError (the cell is rejected by the
parser); `dimensionError` is the typed failure the spec postulates, which
lets us state — and refute — the claim that the code raises it. -/
inductive PyError where
  | parseError
  | typeError
  | nameError
  | indexError
  | dimensionError
deriving DecidableEq

/-- One instruction of a Qiskit circuit as used by the gates notebook:
`qc.x(q)`, `qc.cx(c, t)` and `qc.measure(q, c)`. -/
inductive GOp where
  | x (q : Nat)
  | cx (c t : Nat)
  | meas (q c : Nat)
deriving DecidableEq

/-- A `QuantumCircuit(QuantumRegister(nq), ClassicalRegister(nc))` together
with the instructions appended so far, in order. -/
structure QasmCircuit where
  nq : Nat
  nc : Nat
  ops : List GOp
deriving DecidableEq

/-- Append one instruction (the circuit methods mutate `qc` in place in
Python; here the extended circuit is returned). -/
def addOp (qc : QasmCircuit) (op : GOp) : QasmCircuit :=
  ⟨qc.nq, qc.nc, qc.ops ++ [op]⟩

/-- `qc.x(q)` -/
def addX (qc : QasmCircuit) (q : Nat) : QasmCircuit := addOp qc (GOp.x q)

/-- `qc.measure(q, c)` -/
def addMeas (qc : QasmCircuit) (q c : Nat) : QasmCircuit := addOp qc (GOp.meas q c)

/-- `qc.cx(...)`: `QuantumCircuit.cx(control_qubit, target_qubit)` accepts
exactly two qubit arguments; any other argument count raises TypeError at
the call site (the notebook's AND/NAND/OR all write `qc.cx(q[0],q[1],q[2])`). -/
def cxArgs (qc : QasmCircuit) (args : List Nat) : Except PyError QasmCircuit :=
  match args with
  | [c, t] => Except.ok (addOp qc (GOp.cx c t))
  | _ => Except.error PyError.typeError

/-- Read qubit/clbit `i` of a register (all registers involved are long
enough; out-of-range reads default to `false` and never occur in the runs
below). -/
def qGet (l : List Bool) (i : Nat) : Bool := l.getD i false

/-- Deterministic effect of one instruction on (qubits, classical bits).
All circuits the gates notebook actually runs consist of `x`, `cx` and
`measure` applied to computational-basis states, on which the
`qasm_simulator` with `shots=1` is deterministic (as the source's comments
state), so the basis-state semantics is exact. -/
def applyGOp : (List Bool × List Bool) → GOp → (List Bool × List Bool)
  | (qs, cs), GOp.x q => (qs.set q (!(qGet qs q)), cs)
  | (qs, cs), GOp.cx c t => (if qGet qs c then qs.set t (!(qGet qs t)) else qs, cs)
  | (qs, cs), GOp.meas q c => (qs, cs.set c (qGet qs q))

/-- Run a circuit from the all-zeros registers and return the classical
register read-out string, most significant bit first — the single entry of
`job.result().get_memory()` (equivalently the unique key of `get_counts()`
for a deterministic one-shot run).  Classical bits never written by a
measurement stay `0`. -/
def runCircuit (qc : QasmCircuit) : String :=
  let st := qc.ops.foldl applyGOp (List.replicate qc.nq false, List.replicate qc.nc false)
  String.mk (st.2.reverse.map (fun b => if b then '1' else '0'))

/-- `NOT(input)` from the gates notebook: encode the input on one qubit,
apply `x`, measure. -/
def NOT (input : String) : String :=
  let qc : QasmCircuit := ⟨1, 1, []⟩
  let qc := if input = "1" then addX qc 0 else qc
  let qc := addX qc 0
  let qc := addMeas qc 0 0
  runCircuit qc

/-- `XOR(input1, input2)` from the gates notebook: `x` on qubit 0 when the
two inputs differ, then `cx(q[0], q[1])`, then measure qubit 1. -/
def XOR (input1 input2 : String) : String :=
  let qc : QasmCircuit := ⟨2, 1, []⟩
  let qc := if input1 ≠ input2 then addX qc 0 else qc
  let qc := addOp qc (GOp.cx 0 1)
  let qc := addMeas qc 1 0
  runCircuit qc

/-- `AND(input1, input2)`: the defining cell is not valid Python — the line
`if input1=="1" AND` (continued by `input2="1":`) is rejected by the
parser, so executing the cell raises SyntaxError, the name is never bound,
and no call of it can ever produce an output.  (Had the conditional
parsed, the body would still fail: it calls `qc.cx(q[0],q[1],q[2])` with
three qubits.) -/
def AND (_input1 _input2 : String) : Except PyError String :=
  Except.error PyError.parseError

/-- `NAND(input1, input2)`: same situation as `AND` — the line
`if input1=="1" OR` (continued by `input2=="1":`) is not valid Python, so
the defining cell raises SyntaxError. -/
def NAND (_input1 _input2 : String) : Except PyError String :=
  Except.error PyError.parseError

/-- `OR(input1, input2)` from the gates notebook.  The body parses: `x` on
qubit 0 when at least one input is not `'0'`, then `qc.cx(q[0],q[1],q[2])`
— a three-argument call of the two-qubit `cx`, which raises TypeError
before the measurement is ever appended. -/
def OR (input1 input2 : String) : Except PyError String := do
  let qc : QasmCircuit := ⟨3, 1, []⟩
  let qc := if input1 ≠ "0" ∨ input2 ≠ "0" then addX qc 0 else qc
  let qc ← cxArgs qc [0, 1, 2]
  let qc := addMeas qc 2 0
  pure (runCircuit qc)

/-- The circuit `FANOUT(input)` builds: three qubits, two classical bits,
and — the body being an unfinished exercise stub — no instructions at all.
The argument is ignored. -/
def FANOUTcircuit (_input : String) : QasmCircuit := ⟨3, 2, []⟩

/-- `FANOUT(input)` from the gates notebook: run the empty circuit and
return `get_memory()[0]`, i.e. the untouched two-bit classical register. -/
def FANOUT (input : String) : String :=
  runCircuit (FANOUTcircuit input)

/-! ## The QAOA notebook, cell by cell

`numpy` arrays of reals are modelled as integer lists (every value the
notebook ever stores in one is an integer: `np.zeros` entries and `+1`
increments), with Python's IndexError on out-of-range access. -/

/-- `np.zeros(n)` -/
def npZeros (n : Nat) : List ℤ := List.replicate n 0

/-- Read `l[i]`, raising IndexError out of range (the notebook only ever
indexes with non-negative values). -/
def npGet (l : List ℤ) (i : Nat) : Except PyError ℤ :=
  if h : i < l.length then Except.ok (l.get ⟨i, h⟩) else Except.error PyError.indexError

/-- Assign `l[i] = v`, raising IndexError out of range. -/
def npSet (l : List ℤ) (i : Nat) (v : ℤ) : Except PyError (List ℤ) :=
  if i < l.length then Except.ok (l.set i v) else Except.error PyError.indexError

/-- A Qiskit `Pauli(z_vector, x_vector)` (first argument selects σ_Z
factors, second σ_X factors, as the notebook's own markdown explains). -/
structure PauliOpr where
  zv : List ℤ
  xv : List ℤ
deriving DecidableEq

/-- A `WeightedPauliOperator`: the list of (coefficient, Pauli) pairs it
was constructed from. -/
abbrev WPauliOp := List (ℤ × PauliOpr)

/-- `n_qubits = 2` (set once, globally, in the notebook). -/
def n_qubits : Nat := 2

/-- `pauli_x(n_qubits, qubit_index, coeff)` from the notebook:
`xr = np.zeros(n)`, `yr = np.zeros(n)`, `yr[qubit_index] += 1`,
`pauli = Pauli(xr, yr)`, and the returned operator is
`WeightedPauliOperator([[0, Pauli(xr, yr)], [coeff, pauli]])` — the same
X-Pauli twice, once with coefficient `0`.  An out-of-range `qubit_index`
raises numpy's IndexError at the increment. -/
def pauli_x (n_qubits qubit_index : Nat) (coeff : ℤ) : Except PyError WPauliOp := do
  let xr := npZeros n_qubits
  let yr := npZeros n_qubits
  let v ← npGet yr qubit_index
  let yr ← npSet yr qubit_index (v + 1)
  let pauli : PauliOpr := ⟨xr, yr⟩
  pure [(0, ⟨xr, yr⟩), (coeff, pauli)]

/-- `pauli_z(n_qubits, qubit_index, coeff)` from the notebook: after
building `xr`, `yr` and incrementing `xr[qubit_index]`, the second
assignment to `paulioperator` reads the name `pauli`, which is not bound
anywhere (it was a local of `pauli_x`), so every call raises NameError. -/
def pauli_z (n_qubits qubit_index : Nat) (coeff : ℤ) : Except PyError WPauliOp := do
  let xr := npZeros n_qubits
  let yr := npZeros n_qubits
  let v ← npGet xr qubit_index
  let xr ← npSet xr qubit_index (v + 1)
  let _paulioperator : PauliOpr := ⟨xr, yr⟩
  let _ := coeff
  Except.error PyError.nameError

/-- `product_pauli_z(q1, q2, coeff)` from the notebook: it fills row 0 of a
fresh `n_qubits × n_qubits` zero matrix at columns `q1` and `q2` and then
evaluates `Pauli(p1[0], p1[1])`, where `p1` (like `p2`) is not bound
anywhere — so every call with in-range `q1`, `q2` raises NameError (an
out-of-range index would raise IndexError first). -/
def product_pauli_z (q1 q2 : Nat) (coeff : ℤ) : Except PyError WPauliOp := do
  let _zero_n_qubit := npZeros n_qubits
  let row := npZeros n_qubits
  let a ← npGet row q1
  let row ← npSet row q1 (a + 1)
  let b ← npGet row q1
  let _row ← npSet row q2 (b + 1)
  let _ := coeff
  Except.error PyError.nameError

/-- `identity = pauli_x(n_qubits, 0, 0)` -/
def identityOp : Except PyError WPauliOp := pauli_x n_qubits 0 0

/-- `Hm = sum([pauli_x(n_qubits, i, -1) for i in range(n_qubits)], identity)`;
summing `WeightedPauliOperator`s accumulates their term lists. -/
def Hm : Except PyError WPauliOp := do
  let id0 ← identityOp
  let terms ← (List.range n_qubits).mapM (fun i => pauli_x n_qubits i (-1))
  pure (terms.foldl (· ++ ·) id0)

/-- `J = np.array([[0,1],[0,0]])` -/
def Jm : List (List ℤ) := [[0, 1], [0, 0]]

/-- `itertools.product(range(n_qubits), repeat=2)` for `n_qubits = 2`. -/
def qubitPairs : List (Nat × Nat) := [(0, 0), (0, 1), (1, 0), (1, 1)]

/-- `Hc = sum([product_pauli_z(i, j, -J[i,j]) for i,j in ...], identity)`:
the very first `product_pauli_z` call raises NameError (unbound `p1`), so
the cell fails and, in the committed notebook, the name `Hc` is never
successfully bound — any later load of it raises NameError as well. -/
def Hc : Except PyError WPauliOp := do
  let id0 ← identityOp
  let terms ← qubitPairs.mapM
    (fun ij => product_pauli_z ij.1 ij.2 (-((Jm.getD ij.1 []).getD ij.2 0)))
  pure (terms.foldl (· ++ ·) id0)

/-- Loading the name `qr`: no cell ever binds `qr` — the initialization
cell binds `qub = QuantumRegister(n_qubits)` instead — so the reference to
`qr` inside `create_circuit` raises NameError. -/
def qrName : Except PyError Unit := Except.error PyError.nameError

/-- `create_circuit(beta, gamma)` from the notebook:
`sum([evolve(Hc, beta[i], qr) + evolve(Hm, gamma[i], qr) for i in range(p)],
circuit_init)`.  Evaluating the comprehension loads `Hc` first, which
raises NameError (see `Hc`); the `qr` load would raise NameError next.
Nothing after those loads is ever reached, so the circuit value itself is
immaterial (`Unit`). -/
def create_circuit (beta gamma : List ℝ) : Except PyError Unit := do
  let _hc ← Hc
  let _ ← qrName
  let _ := beta.getD 0 0
  let _ := gamma.getD 0 0
  pure ()

/-- `evaluate_circuit(beta_gamma)` from the notebook: unpack the two
parameters, bind `quantum_circuit = create_circuit([x], [y])` — and stop.
The body has no `return` statement, so a call that completed would return
Python's `None` (modelled as `none`); in the committed notebook every call
instead propagates `create_circuit`'s NameError.  The result type `Option ℝ`
is "an expectation value, or `None`". -/
def evaluate_circuit (beta_gamma : ℝ × ℝ) : Except PyError (Option ℝ) := do
  let x := beta_gamma.1
  let y := beta_gamma.2
  let _quantum_circuit ← create_circuit [x] [y]
  pure none

/-! ## The spec's state-vector simulator

Modelled from the spec: the simulation itself is delegated to the external
SDK and is not part of this repository's code, so the `StateVectorSimulator`
component is taken from the spec's own description (§2–§4.1): a complex
amplitude vector over `N` qubits — indexed here by the `2^N` assignments
`Fin N → Bool` — with gates from the spec's closed gate list (identity,
Pauli-X, Pauli-Z, controlled-X, Toffoli, a parameterized rotation, plus the
Hadamard the notebook's printed circuit uses) applied in circuit order. -/

/-- A state vector over `n` qubits: one complex amplitude per basis
assignment (length `2^n`). -/
def QState (n : Nat) : Type := (Fin n → Bool) → ℂ

/-- Squared Euclidean norm of a state vector. -/
noncomputable def stateNormSq {n : Nat} (ψ : QState n) : ℝ :=
  ∑ b : Fin n → Bool, Complex.normSq (ψ b)

/-- Read bit `q` of a basis assignment (`false` when `q` is out of range). -/
def bitGet {n : Nat} (q : Nat) (b : Fin n → Bool) : Bool :=
  if h : q < n then b ⟨q, h⟩ else false

/-- Overwrite bit `q` of a basis assignment (no effect when `q` is out of
range). -/
def bitSet {n : Nat} (q : Nat) (v : Bool) (b : Fin n → Bool) : Fin n → Bool :=
  fun i => if (i : Nat) = q then v else b i

/-- Complement bit `q` of a basis assignment. -/
def bitFlip {n : Nat} (q : Nat) (b : Fin n → Bool) : Fin n → Bool :=
  fun i => if (i : Nat) = q then !(b i) else b i

/-- The spec's closed gate enumeration: identity, Pauli-X, Pauli-Z,
Hadamard, a parameterized Z-rotation, controlled-X, and Toffoli
(double-controlled-X).  Qubit positions are raw indices so that the
validity side condition below is meaningful. -/
inductive Gate where
  | id
  | x (q : Nat)
  | z (q : Nat)
  | h (q : Nat)
  | rz (θ : ℝ) (q : Nat)
  | cx (c t : Nat)
  | ccx (c₁ c₂ t : Nat)

/-- A gate is valid for `n` qubits when all its qubit indices are in
`[0, n)` and, matching its arity, pairwise distinct. -/
def Gate.valid (n : Nat) : Gate → Bool
  | Gate.id => true
  | Gate.x q => decide (q < n)
  | Gate.z q => decide (q < n)
  | Gate.h q => decide (q < n)
  | Gate.rz _ q => decide (q < n)
  | Gate.cx c t => decide (c < n ∧ t < n ∧ c ≠ t)
  | Gate.ccx c₁ c₂ t => decide (c₁ < n ∧ c₂ < n ∧ t < n ∧ c₁ ≠ c₂ ∧ c₁ ≠ t ∧ c₂ ≠ t)

/-- Apply one gate's unitary to the state vector (tensor identity on all
other qubits): X permutes basis amplitudes by a bit flip, Z and RZ(θ)
multiply the bit-set amplitudes by a phase, H combines the two amplitudes
of the target bit, CX / CCX flip the target conditionally on the
control(s). -/
noncomputable def applyGate {n : Nat} : Gate → QState n → QState n
  | Gate.id, ψ => ψ
  | Gate.x q, ψ => fun b => ψ (bitFlip q b)
  | Gate.z q, ψ => fun b => (if bitGet q b then -1 else 1) * ψ b
  | Gate.h q, ψ => fun b =>
      (ψ (bitSet q false b) + (if bitGet q b then -1 else 1) * ψ (bitSet q true b)) /
        (Real.sqrt 2 : ℝ)
  | Gate.rz θ q, ψ => fun b => (if bitGet q b then Complex.exp (θ * Complex.I) else 1) * ψ b
  | Gate.cx c t, ψ => fun b => ψ (if bitGet c b then bitFlip t b else b)
  | Gate.ccx c₁ c₂ t, ψ => fun b =>
      ψ (if bitGet c₁ b && bitGet c₂ b then bitFlip t b else b)

/-- A circuit is an ordered gate sequence; it is valid when every gate is. -/
def validCircuit (n : Nat) (c : List Gate) : Bool := c.all (Gate.valid n)

/-- Apply a full circuit, gate by gate, in insertion order. -/
noncomputable def applyCircuit {n : Nat} (c : List Gate) (ψ : QState n) : QState n :=
  c.foldl (fun s g => applyGate g s) ψ

/-- The computational basis state `|b₀⟩`. -/
def basisState {n : Nat} (b₀ : Fin n → Bool) : QState n :=
  fun b => if b = b₀ then 1 else 0

/-- A single-qubit Pauli operator, per the spec's data model `{I,X,Y,Z}`. -/
inductive POp where
  | I
  | X
  | Y
  | Z
deriving DecidableEq

/-- Whether the operator has off-diagonal action (flips the basis bit). -/
def POp.flips : POp → Bool
  | POp.X => true
  | POp.Y => true
  | _ => false

/-- The unique non-zero matrix entry of the operator on row `b` (the
column is then `b` complemented when the operator flips): `I`, `X` have
entry `1`; `Z` has `(-1)^b` on the diagonal; `Y` has `⟨0|Y|1⟩ = -i` and
`⟨1|Y|0⟩ = i`. -/
def POp.entry : POp → Bool → ℂ
  | POp.I, _ => 1
  | POp.X, _ => 1
  | POp.Y, b => if b then Complex.I else -Complex.I
  | POp.Z, b => if b then -1 else 1

/-- A Pauli term of a Hamiltonian, per the spec's data model: a real
coefficient and a Pauli string mapping each qubit index to `{I,X,Y,Z}`. -/
structure PauliTerm (n : Nat) where
  coeff : ℝ
  pstring : Fin n → POp

/-- Complement exactly the bits at which the Pauli string has an X or Y
factor. -/
def pauliFlip {n : Nat} (s : Fin n → POp) (b : Fin n → Bool) : Fin n → Bool :=
  fun i => if (s i).flips then !(b i) else b i

/-- Apply a Pauli string to a state vector: amplitude at `b` is the product
of the single-qubit matrix entries times the amplitude at the flipped
assignment. -/
noncomputable def applyPauli {n : Nat} (s : Fin n → POp) (ψ : QState n) : QState n :=
  fun b => (∏ i : Fin n, (s i).entry (b i)) * ψ (pauliFlip s b)

/-- The inner product `⟨φ|ψ⟩`. -/
noncomputable def qOverlap {n : Nat} (φ ψ : QState n) : ℂ :=
  ∑ b : Fin n → Bool, (starRingEnd ℂ) (φ b) * ψ b

/-- The simulator's whole mutable state: the state vector it owns. -/
structure SimState (n : Nat) where
  psi : QState n

/-- Modelled from the spec: `expectation(pauli_terms)` "returns the
real-valued sum of coefficient × ⟨state|Pauli string|state⟩ without
collapsing state (computed algebraically, not by repeated sampling)".
The pair returned is (value, simulator state after the call). -/
noncomputable def expectation {n : Nat} (sim : SimState n) (terms : List (PauliTerm n)) :
    ℝ × SimState n :=
  ((terms.map (fun t => t.coeff * (qOverlap sim.psi (applyPauli t.pstring sim.psi)).re)).sum,
    sim)

/-! ## Theorems -/

theorem bitFlip_inv {n : Nat} (q : Nat) : Function.Involutive (@bitFlip n q) := by
  intro b
  funext i
  by_cases h : (i : Nat) = q <;> simp [bitFlip, h]

theorem sum_comp_invol {α M : Type} [Fintype α] [AddCommMonoid M] (e : α → α)
    (he : Function.Involutive e) (F : α → M) : (∑ b, F (e b)) = ∑ b, F b :=
  Equiv.sum_comp (he.toPerm e) F

theorem bitGet_lt {n : Nat} (q : Nat) (hq : q < n) (b : Fin n → Bool) :
    bitGet q b = b ⟨q, hq⟩ := dif_pos hq

theorem bitGet_bitSet {n : Nat} (q : Nat) (hq : q < n) (v : Bool) (b : Fin n → Bool) :
    bitGet q (bitSet q v b) = v := by
  rw [bitGet_lt q hq]
  simp [bitSet]

theorem bitSet_bitSet {n : Nat} (q : Nat) (v w : Bool) (b : Fin n → Bool) :
    bitSet q v (bitSet q w b) = bitSet q v b := by
  funext i
  by_cases h : (i : Nat) = q <;> simp [bitSet, h]

theorem bitSet_eq_self {n : Nat} (q : Nat) (hq : q < n) (v : Bool) (b : Fin n → Bool)
    (h : bitGet q b = v) : bitSet q v b = b := by
  funext i
  by_cases hi : (i : Nat) = q
  · have : i = (⟨q, hq⟩ : Fin n) := Fin.ext hi
    rw [bitGet_lt q hq] at h
    simp [bitSet, hi, this, h]
  · simp [bitSet, hi]

theorem bitGet_bitFlip_ne {n : Nat} (c t : Nat) (hct : c ≠ t) (b : Fin n → Bool) :
    bitGet c (bitFlip t b) = bitGet c b := by
  unfold bitGet
  by_cases h : c < n
  · simp [dif_pos h, bitFlip, hct]
  · simp [dif_neg h]

theorem cxMap_inv {n : Nat} (c t : Nat) (hct : c ≠ t) :
    Function.Involutive (fun b : Fin n → Bool => if bitGet c b then bitFlip t b else b) := by
  intro b
  by_cases h : bitGet c b
  · simp only [h, if_true, bitGet_bitFlip_ne c t hct b, bitFlip_inv t b]
  · simp only [h, if_false, Bool.false_eq_true]

theorem ccxMap_inv {n : Nat} (c₁ c₂ t : Nat) (h₁ : c₁ ≠ t) (h₂ : c₂ ≠ t) :
    Function.Involutive
      (fun b : Fin n → Bool => if bitGet c₁ b && bitGet c₂ b then bitFlip t b else b) := by
  intro b
  by_cases h : bitGet c₁ b && bitGet c₂ b
  · simp only [h, if_true, bitGet_bitFlip_ne c₁ t h₁ b, bitGet_bitFlip_ne c₂ t h₂ b,
      bitFlip_inv t b]
  · simp only [h, if_false, Bool.false_eq_true]

theorem sum_bit_split {n : Nat} (q : Nat) (hq : q < n) (F : (Fin n → Bool) → ℝ) :
    (∑ b : Fin n → Bool, F b) =
      ∑ b ∈ Finset.univ.filter (fun b : Fin n → Bool => bitGet q b = false),
        (F b + F (bitSet q true b)) := by
  rw [Finset.sum_add_distrib,
    ← Finset.sum_filter_add_sum_filter_not Finset.univ
      (fun b : Fin n → Bool => bitGet q b = false) F]
  congr 1
  refine Finset.sum_nbij' (fun b => bitSet q false b) (fun b => bitSet q true b) ?_ ?_ ?_ ?_ ?_
  · intro a ha
    simp only [Finset.mem_filter, Finset.mem_univ, true_and]
    exact bitGet_bitSet q hq false a
  · intro a ha
    simp only [Finset.mem_filter, Finset.mem_univ, true_and] at ha ⊢
    intro hfalse
    rw [bitGet_bitSet q hq true a] at hfalse
    exact Bool.noConfusion hfalse
  · intro a ha
    simp only [Finset.mem_filter, Finset.mem_univ, true_and] at ha
    show bitSet q true (bitSet q false a) = a
    rw [bitSet_bitSet]
    exact bitSet_eq_self q hq true a (Bool.not_eq_false _ |>.mp ha)
  · intro a ha
    simp only [Finset.mem_filter, Finset.mem_univ, true_and] at ha
    show bitSet q false (bitSet q true a) = a
    rw [bitSet_bitSet]
    exact bitSet_eq_self q hq false a ha
  · intro a ha
    simp only [Finset.mem_filter, Finset.mem_univ, true_and] at ha
    show F a = F (bitSet q true (bitSet q false a))
    rw [bitSet_bitSet]
    rw [bitSet_eq_self q hq true a (Bool.not_eq_false _ |>.mp ha)]

theorem normSq_hadamard_pair (a c : ℂ) :
    Complex.normSq ((a + c) / ((Real.sqrt 2 : ℝ) : ℂ)) +
      Complex.normSq ((a + -1 * c) / ((Real.sqrt 2 : ℝ) : ℂ)) =
    Complex.normSq a + Complex.normSq c := by
  have hb : (-1 : ℂ) * c = -c := by ring
  have h2 : Complex.normSq ((Real.sqrt 2 : ℝ) : ℂ) = 2 := by
    rw [Complex.normSq_ofReal]
    exact Real.mul_self_sqrt (by norm_num)
  rw [hb, ← sub_eq_add_neg, Complex.normSq_div, Complex.normSq_div, h2,
    Complex.normSq_add, Complex.normSq_sub]
  ring

theorem stateNormSq_applyGate {n : Nat} (g : Gate) (hg : g.valid n = true) (ψ : QState n) :
    stateNormSq (applyGate g ψ) = stateNormSq ψ := by
  cases g with
  | id => rfl
  | x q =>
      exact sum_comp_invol (@bitFlip n q) (bitFlip_inv q) (fun b => Complex.normSq (ψ b))
  | z q =>
      refine Finset.sum_congr rfl fun b _ => ?_
      by_cases hb : bitGet q b <;> simp [applyGate, hb, Complex.normSq_mul]
  | rz θ q =>
      have hexp : Complex.normSq (Complex.exp ((θ : ℂ) * Complex.I)) = 1 := by
        rw [Complex.normSq_eq_abs, Complex.abs_exp_ofReal_mul_I]
        norm_num
      refine Finset.sum_congr rfl fun b _ => ?_
      by_cases hb : bitGet q b <;> simp [applyGate, hb, Complex.normSq_mul, hexp]
  | h q =>
      have hq : q < n := by simpa [Gate.valid] using hg
      show (∑ b : Fin n → Bool,
          Complex.normSq ((ψ (bitSet q false b) +
            (if bitGet q b then -1 else 1) * ψ (bitSet q true b)) / ((Real.sqrt 2 : ℝ) : ℂ))) =
        ∑ b : Fin n → Bool, Complex.normSq (ψ b)
      rw [sum_bit_split q hq, sum_bit_split q hq (fun b => Complex.normSq (ψ b))]
      refine Finset.sum_congr rfl fun b hb => ?_
      rw [Finset.mem_filter] at hb
      have h0 : bitGet q b = false := hb.2
      have hset0 : bitSet q false b = b := bitSet_eq_self q hq false b h0
      have hget1 : bitGet q (bitSet q true b) = true := bitGet_bitSet q hq true b
      rw [h0, hget1, hset0, bitSet_bitSet, bitSet_bitSet, hset0]
      simp only [if_false, if_true, Bool.false_eq_true, one_mul]
      exact normSq_hadamard_pair (ψ b) (ψ (bitSet q true b))
  | cx c t =>
      have hv : c < n ∧ t < n ∧ c ≠ t := by simpa [Gate.valid] using hg
      exact sum_comp_invol _ (cxMap_inv c t hv.2.2) (fun b => Complex.normSq (ψ b))
  | ccx c₁ c₂ t =>
      have hv : c₁ < n ∧ c₂ < n ∧ t < n ∧ c₁ ≠ c₂ ∧ c₁ ≠ t ∧ c₂ ≠ t := by
        simpa [Gate.valid] using hg
      exact sum_comp_invol _ (ccxMap_inv c₁ c₂ t hv.2.2.2.2.1 hv.2.2.2.2.2)
        (fun b => Complex.normSq (ψ b))

theorem stateNormSq_basisState {n : Nat} (b₀ : Fin n → Bool) :
    stateNormSq (basisState b₀) = 1 := by
  unfold stateNormSq basisState
  rw [Finset.sum_eq_single b₀]
  · simp
  · intro b _ hb
    simp [hb]
  · intro h
    exact absurd (Finset.mem_univ b₀) h

/-- C5: applying any valid circuit (all qubit indices in range, index
lists consistent with each gate's arity) to a unit-norm state vector of
length `2^N` preserves the Euclidean norm exactly — in particular to
within any floating-point tolerance — and, the proof going gate by gate,
after every intermediate unitary application as well. -/
theorem claim_C5_norm_preserved {n : Nat} (c : List Gate) (hc : validCircuit n c = true)
    (ψ : QState n) (hψ : stateNormSq ψ = 1) : stateNormSq (applyCircuit c ψ) = 1 := by
  induction c generalizing ψ with
  | nil => exact hψ
  | cons g gs ih =>
      have hv : Gate.valid n g = true ∧ validCircuit n gs = true := by
        simpa [validCircuit, List.all_cons, Bool.and_eq_true] using hc
      exact ih hv.2 (applyGate g ψ) (by rw [stateNormSq_applyGate g hv.1 ψ, hψ])

/-- C5 (witness): the printed QAOA circuit shape — a Hadamard then a CNOT
on two qubits — is valid, and applied to the unit-norm basis state |00⟩
it again yields a unit-norm state. -/
theorem claim_C5_witness :
    validCircuit 2 [Gate.h 0, Gate.cx 0 1] = true ∧
    stateNormSq (basisState (fun _ : Fin 2 => false)) = 1 ∧
    stateNormSq (applyCircuit [Gate.h 0, Gate.cx 0 1]
      (basisState (fun _ : Fin 2 => false))) = 1 := by
  refine ⟨by decide, stateNormSq_basisState _, ?_⟩
  exact claim_C5_norm_preserved [Gate.h 0, Gate.cx 0 1] (by decide) _
    (stateNormSq_basisState _)

theorem pauliFlip_inv {n : Nat} (s : Fin n → POp) : Function.Involutive (pauliFlip s) := by
  intro b
  funext i
  by_cases h : (s i).flips <;> simp [pauliFlip, h]

theorem pentry_conj (p : POp) (x : Bool) :
    (starRingEnd ℂ) (POp.entry p (if p.flips then !x else x)) = POp.entry p x := by
  cases p <;> cases x <;>
    simp [POp.entry, POp.flips, Complex.conj_I, map_neg, map_one, neg_neg]

theorem prod_entry_conj {n : Nat} (s : Fin n → POp) (b : Fin n → Bool) :
    (starRingEnd ℂ) (∏ i : Fin n, (s i).entry (pauliFlip s b i)) =
      ∏ i : Fin n, (s i).entry (b i) := by
  rw [map_prod]
  exact Finset.prod_congr rfl fun i _ => pentry_conj (s i) (b i)

theorem qOverlap_applyPauli_real {n : Nat} (s : Fin n → POp) (ψ : QState n) :
    (((qOverlap ψ (applyPauli s ψ)).re : ℝ) : ℂ) = qOverlap ψ (applyPauli s ψ) := by
  rw [← Complex.conj_eq_iff_re]
  show (starRingEnd ℂ)
      (∑ b : Fin n → Bool, (starRingEnd ℂ) (ψ b) *
        ((∏ i : Fin n, (s i).entry (b i)) * ψ (pauliFlip s b))) =
    ∑ b : Fin n → Bool, (starRingEnd ℂ) (ψ b) *
      ((∏ i : Fin n, (s i).entry (b i)) * ψ (pauliFlip s b))
  rw [map_sum]
  rw [← sum_comp_invol (pauliFlip s) (pauliFlip_inv s)
    (fun b => (starRingEnd ℂ) ((starRingEnd ℂ) (ψ b) *
      ((∏ i : Fin n, (s i).entry (b i)) * ψ (pauliFlip s b))))]
  refine Finset.sum_congr rfl fun b _ => ?_
  show (starRingEnd ℂ) ((starRingEnd ℂ) (ψ (pauliFlip s b)) *
      ((∏ i : Fin n, (s i).entry (pauliFlip s b i)) * ψ (pauliFlip s (pauliFlip s b)))) =
    (starRingEnd ℂ) (ψ b) * ((∏ i : Fin n, (s i).entry (b i)) * ψ (pauliFlip s b))
  rw [pauliFlip_inv s b, map_mul, map_mul, Complex.conj_conj, prod_entry_conj s b]
  ring

theorem expectation_sum_ofReal {n : Nat} (ψ : QState n) (terms : List (PauliTerm n)) :
    (((terms.map
        (fun t => t.coeff * (qOverlap ψ (applyPauli t.pstring ψ)).re)).sum : ℝ) : ℂ) =
      (terms.map (fun t => (t.coeff : ℂ) * qOverlap ψ (applyPauli t.pstring ψ))).sum := by
  induction terms with
  | nil => simp
  | cons t ts ih =>
      simp only [List.map_cons, List.sum_cons, Complex.ofReal_add]
      rw [ih, Complex.ofReal_mul, qOverlap_applyPauli_real]

/-- C7: the simulator's `expectation` operation returns, for every state
vector and every list of Pauli terms, the real number whose complex
coercion equals the sum over terms of coefficient × ⟨state|Pauli
string|state⟩ (in particular that sum IS real), and hands the simulator's
state back unchanged — no measurement collapse happens during expectation
evaluation. -/
theorem claim_C7_expectation {n : Nat} (sim : SimState n) (terms : List (PauliTerm n)) :
    (((expectation sim terms).1 : ℝ) : ℂ) =
      (terms.map (fun t => (t.coeff : ℂ) * qOverlap sim.psi (applyPauli t.pstring sim.psi))).sum ∧
    (expectation sim terms).2 = sim := by
  exact ⟨expectation_sum_ofReal sim.psi terms, rfl⟩

/-- C3: the NOT function, applied to the binary-string input '0', returns
'1', and applied to '1' returns '0'. -/
theorem claim_C3_not_gate : NOT "0" = "1" ∧ NOT "1" = "0" := by
  constructor <;> rfl

/-- C4: the XOR function returns '0' when its two binary-string inputs are
equal and '1' when they differ, for all four input combinations. -/
theorem claim_C4_xor_gate :
    XOR "0" "0" = "0" ∧ XOR "0" "1" = "1" ∧ XOR "1" "0" = "1" ∧ XOR "1" "1" = "0" := by
  refine ⟨?_, ?_, ?_, ?_⟩ <;> rfl

/-- C1 (code bug): far from returning truth-table outputs, the AND and
NAND cells are rejected by the Python parser (SyntaxError: the lines
`if input1=="1" AND` / `if input1=="1" OR` are not Python), and every OR
call dies with TypeError on `qc.cx(q[0],q[1],q[2])` — the two-qubit `cx`
called with three qubits — before any measurement happens. -/
theorem claim_C1_gates_broken :
    AND "1" "1" = Except.error PyError.parseError ∧
    NAND "1" "1" = Except.error PyError.parseError ∧
    ∀ input1 input2 : String, OR input1 input2 = Except.error PyError.typeError := by
  exact ⟨rfl, rfl, fun _ _ => rfl⟩

/-- C10 (counterexample): the claim "it never produces two copies of the
input" fails at input '0': the untouched two-bit classical register reads
out as "00", which is exactly two copies of '0' — coincidentally, not by
copying. -/
theorem claim_C10_counterexample : FANOUT "0" = "0" ++ "0" := by rfl

/-- C10 (amended): FANOUT builds, for every input, the same circuit, with
no gates and no measurements, so its result cannot depend on the input; in
particular it fails to copy input '1' (its constant output "00" only
coincidentally equals two copies of '0'). -/
theorem claim_C10_fanout_constant (input1 input2 : String) :
    FANOUTcircuit input1 = FANOUTcircuit input2 ∧
    (FANOUTcircuit input1).ops = [] ∧
    FANOUT input1 = FANOUT input2 ∧
    FANOUT "1" ≠ "1" ++ "1" := by
  refine ⟨rfl, rfl, rfl, ?_⟩
  intro h
  simp [FANOUT, FANOUTcircuit, runCircuit] at h

/-- C2 (code bug): the first thing the classical optimizer does is
evaluate the objective, and `evaluate_circuit` raises NameError for every
parameter pair — `create_circuit` loads `Hc`, whose defining cell already
failed on `product_pauli_z`'s unbound `p1`, and then `qr`, which no cell
binds — so `minimize` crashes on its first objective evaluation for every
random seed and can never report an expectation near −1.0 (the saved
notebook output `fun: -0.99999...` came from a run of code that is not the
committed code). -/
theorem claim_C2_objective_raises (beta gamma : ℝ) :
    evaluate_circuit (beta, gamma) = Except.error PyError.nameError := rfl

/-- C9 (counterexample): `evaluate_circuit` does not return `None` (nor
anything else) at the input `(0, 0)`: the call raises NameError before the
missing `return` could even matter. -/
theorem claim_C9_counterexample :
    evaluate_circuit (0, 0) ≠ Except.ok none ∧
    evaluate_circuit (0, 0) = Except.error PyError.nameError := by
  exact ⟨fun h => Except.noConfusion h, rfl⟩

/-- C9 (amended): `evaluate_circuit` never returns the expectation value
⟨ψ|Hc|ψ⟩ for any input — its body has no `return` statement — but in the
committed notebook it does not return `None` either: every call raises
NameError through `create_circuit`'s references to the never-bound `Hc`
and `qr`. -/
theorem claim_C9_never_expectation (beta_gamma : ℝ × ℝ) :
    evaluate_circuit beta_gamma = Except.error PyError.nameError ∧
    ∀ v : ℝ, evaluate_circuit beta_gamma ≠ Except.ok (some v) := by
  exact ⟨rfl, fun _ h => Except.noConfusion h⟩

/-- C8 (counterexample): `pauli_x` called with qubit index 5 on 2 qubits
fails — but with numpy's untyped IndexError, not with the typed
DimensionError the claim names (no DimensionError exists anywhere in the
code). -/
theorem claim_C8_counterexample :
    pauli_x 2 5 1 = Except.error PyError.indexError ∧
    pauli_x 2 5 1 ≠ Except.error PyError.dimensionError := by
  refine ⟨rfl, ?_⟩
  intro h
  exact absurd (Except.error.inj h) (by decide)

/-- C8 (amended): an out-of-range qubit index makes `pauli_x` fail with
IndexError (not DimensionError) and an in-range index makes it succeed,
returning the weighted operator `[[0, X_qi], [coeff, X_qi]]`; a `cx` call
whose argument count disagrees with the gate's two-qubit arity fails with
TypeError, while a two-argument call succeeds. -/
theorem claim_C8_amended (n qi : Nat) (coeff : ℤ) :
    (n ≤ qi → pauli_x n qi coeff = Except.error PyError.indexError) ∧
    (qi < n → pauli_x n qi coeff =
      Except.ok [(0, ⟨npZeros n, (npZeros n).set qi 1⟩),
                 (coeff, ⟨npZeros n, (npZeros n).set qi 1⟩)]) ∧
    (∀ qc : QasmCircuit, ∀ args : List Nat,
      args.length ≠ 2 → cxArgs qc args = Except.error PyError.typeError) ∧
    (∀ qc : QasmCircuit, ∀ a b : Nat,
      cxArgs qc [a, b] = Except.ok (addOp qc (GOp.cx a b))) := by
  refine ⟨?_, ?_, ?_, fun _ _ _ => rfl⟩
  · intro h
    simp [pauli_x, npGet, npZeros, Nat.not_lt.mpr h]
    rfl
  · intro h
    simp [pauli_x, npGet, npSet, npZeros, h, List.getElem_replicate]
    rfl
  · intro qc args h
    match args with
    | [] => rfl
    | [_] => rfl
    | [_, _] => exact absurd rfl h
    | _ :: _ :: _ :: _ => rfl

/-- C8 (witness): the amended statement at concrete inputs — index 5 on 2
qubits yields IndexError, and the notebook's own three-qubit `cx` call
yields TypeError. -/
theorem claim_C8_witness :
    pauli_x 2 5 1 = Except.error PyError.indexError ∧
    cxArgs ⟨3, 1, []⟩ [0, 1, 2] = Except.error PyError.typeError := by
  exact ⟨(claim_C8_amended 2 5 1).1 (by decide),
    (claim_C8_amended 2 5 1).2.2.1 ⟨3, 1, []⟩ [0, 1, 2] (by decide)⟩
